import Mathlib

/-!
Verification of the SynchroTwin-AR repository against its specification.

The development shallowly embeds:
* the core resonance pipeline pseudocode `resonance_window`
  (src/research_report.md, Appendix B, lines 429-444),
* the demo App's simulated session loop (App.jsx in src/unnamed/part_000,
  lines 749-791),
* the `useWebSocket` notification handler (src/unnamed/part_002,
  lines 793-843), and
* the `NotificationPanel` read/clear logic
  (src/frontend/.../NotificationPanel.jsx).

Machine floats are modelled as real numbers; division by zero follows
Lean's `x / 0 = 0` convention (where the Python source would produce
NaN, this is noted at the relevant theorem).
-/

/-! ## Frontend list/state embeddings -/

/-- `l.slice(-cap)` for `cap > 0`: the suffix of `l` of length at most
`cap` (App.jsx keeps the last 50 resonance points this way). -/
def sliceLast {α : Type} (cap : ℕ) (l : List α) : List α :=
  l.drop (l.length - cap)

/-- One step of App.jsx `setResonanceData`:
`prev => [...prev, newPoint].slice(-50)`; the capacity (50 in the
source) is the parameter `cap`. -/
def pushEvict {α : Type} (cap : ℕ) (buf : List α) (x : α) : List α :=
  sliceLast cap (buf ++ [x])

/-- One step of App.jsx `setCurrentResonance`:
`Math.max(0, Math.min(1, currentResonance + delta))` where
`delta = (Math.random() - 0.5) * 0.1`. -/
noncomputable def updateResonance (r : ℝ) (δ : ℝ) : ℝ :=
  max 0 (min 1 (r + δ))

/-- Initial value of `currentResonance` in App.jsx: `useState(0.32)`. -/
noncomputable def initialResonance : ℝ := 0.32

/-- `maxNotifications` in useWebSocket (src/unnamed/part_002 line 794). -/
def maxNotifications : ℕ := 100

/-- `handleNotification` in useWebSocket:
`prev => [notification, ...prev].slice(0, maxNotifications)`. -/
def handleNotification {α : Type} (buf : List α) (x : α) : List α :=
  (x :: buf).take maxNotifications

/-- A notification as far as NotificationPanel's read-tracking cares:
only its `id` matters. -/
structure Notification where
  id : ℕ

/-- NotificationPanel state: the `notifications` prop together with the
`readNotifications` id set. -/
structure PanelState where
  notifications : List Notification
  readNotifications : Finset ℕ

/-- `clearAll` in NotificationPanel.jsx (lines 54-57):
`setReadNotifications(new Set())`; the `notifications` prop is not
touched. -/
def clearAll (s : PanelState) : PanelState :=
  { s with readNotifications := ∅ }

/-- `unreadCount` in NotificationPanel.jsx (line 172):
`notifications.filter(n => !readNotifications.has(n.id)).length`. -/
def unreadCount (s : PanelState) : ℕ :=
  (s.notifications.filter (fun n => n.id ∉ s.readNotifications)).length

/-! ### Helper lemmas for the buffer embeddings -/

/-- Dropping before a suffix of length at least `cap` only sees the
suffix. -/
theorem sliceLast_append_left {α : Type} (cap : ℕ) (t m : List α)
    (h : cap ≤ m.length) : sliceLast cap (t ++ m) = sliceLast cap m := by
  unfold sliceLast
  have hlen : t.length + m.length - cap = t.length + (m.length - cap) := by
    omega
  rw [List.length_append, hlen, List.drop_append]

/-- Re-slicing after a slice is the same as slicing the whole list. -/
theorem sliceLast_sliceLast_append {α : Type} (cap : ℕ) (l xs : List α) :
    sliceLast cap (sliceLast cap l ++ xs) = sliceLast cap (l ++ xs) := by
  by_cases h : l.length ≤ cap
  · have : sliceLast cap l = l := by
      unfold sliceLast
      have : l.length - cap = 0 := by omega
      rw [this, List.drop_zero]
    rw [this]
  · push_neg at h
    have hsuffix : l = l.take (l.length - cap) ++ sliceLast cap l := by
      unfold sliceLast
      exact (List.take_append_drop _ l).symm
    have hlen : (sliceLast cap l).length = cap := by
      unfold sliceLast
      rw [List.length_drop]
      omega
    have h1 : sliceLast cap (l ++ xs) =
        sliceLast cap (l.take (l.length - cap) ++ (sliceLast cap l ++ xs)) := by
      conv_lhs => rw [hsuffix]
      rw [List.append_assoc]
    rw [h1]
    exact (sliceLast_append_left cap _ _
      (by rw [List.length_append, hlen]; omega)).symm

/-- Folding `pushEvict` over a sample list starting from a buffer inside
capacity keeps exactly the suffix of the pushed stream. -/
theorem foldl_pushEvict {α : Type} (cap : ℕ) (xs : List α) :
    ∀ buf : List α, buf.length ≤ cap →
      List.foldl (pushEvict cap) buf xs = sliceLast cap (buf ++ xs) := by
  induction xs with
  | nil =>
    intro buf hbuf
    rw [List.foldl_nil, List.append_nil]
    unfold sliceLast
    have : buf.length - cap = 0 := by omega
    rw [this, List.drop_zero]
  | cons x xs ih =>
    intro buf hbuf
    have hstep : (pushEvict cap buf x).length ≤ cap := by
      unfold pushEvict sliceLast
      rw [List.length_drop]
      omega
    rw [List.foldl_cons, ih _ hstep]
    unfold pushEvict
    rw [sliceLast_sliceLast_append, List.append_assoc, List.singleton_append]

/-! ## Core resonance pipeline (research_report.md Appendix B)

`resonance_window(winA, winB)` computes, per analysis window:
`plv = abs(np.mean(np.exp(1j * (winA.phase - winB.phase))))`,
`r_env = pearson(winA.env, winB.env)`,
`crqa_n = normalized_crqa(winA.pause_seq, winB.pause_seq)`,
`fnirs = wavelet_coherence(winA.fnirs, winB.fnirs) if (winA.fnirs and
winB.fnirs) else 0.0`,
`r = logistic(w1*plv + w2*r_env + w3*crqa_n + w4*fnirs)`,
`conf = confidence_from_snr(...)`, and returns the record of all six. -/

/-- One participant's extracted analysis window, as consumed by
`resonance_window`: instantaneous phases, envelope samples, binarized
pause/event sequence, optional fNIRS series, and an SNR scalar. -/
structure Window where
  phase : List ℝ
  env : List ℝ
  pause_seq : List Bool
  fnirs : Option (List ℝ)
  snr : ℝ

/-- The record returned by `resonance_window`
(`{plv, r_env, crqa, fnirs, r, conf}`). -/
structure Resonance where
  plv : ℝ
  r_env : ℝ
  crqa : ℝ
  fnirs : ℝ
  r : ℝ
  conf : ℝ

/-- Weights `w1..w4` (globals of the pseudocode) together with the CRQA
calibration inputs the spec leaves as per-session configuration. -/
structure FusionConfig where
  w1 : ℝ
  w2 : ℝ
  w3 : ℝ
  w4 : ℝ
  lmin : ℕ
  crqaLo : ℝ
  crqaHi : ℝ

/-- The logistic squashing function `logistic(z) = 1 / (1 + e^(-z))`. -/
noncomputable def logistic (z : ℝ) : ℝ :=
  1 / (1 + Real.exp (-z))

/-- Mean of a list of reals (`np.mean`; empty list is NaN in numpy,
`0` under the `x / 0 = 0` convention used throughout). -/
noncomputable def meanList (l : List ℝ) : ℝ :=
  l.sum / l.length

/-- `abs(np.mean(np.exp(1j * (pa - pb))))`: the phase-locking value of
two phase sequences, elementwise difference then mean of unit phasors. -/
noncomputable def plvVal (pa pb : List ℝ) : ℝ :=
  Complex.abs
    (((List.zipWith (fun x y => x - y) pa pb).map
        (fun θ : ℝ => Complex.exp (θ * Complex.I))).sum /
      ((List.zipWith (fun x y => x - y) pa pb).length : ℂ))

/-- `pearson(a, b)`: sample Pearson correlation coefficient of the two
envelope sequences (the helper the pseudocode calls; standard formula,
undefined denominators give `0`). -/
noncomputable def pearson (a b : List ℝ) : ℝ :=
  let n := min a.length b.length
  let xs := a.take n
  let ys := b.take n
  let mx := meanList xs
  let my := meanList ys
  let cov := ((xs.zip ys).map (fun p => (p.1 - mx) * (p.2 - my))).sum
  let sx := (xs.map (fun x => (x - mx) ^ 2)).sum
  let sy := (ys.map (fun y => (y - my) ^ 2)).sum
  cov / Real.sqrt (sx * sy)

/-- Aligned-bin cross recurrence of two binarized event sequences:
bin `i` is recurrent when both sequences mark an event there. -/
def recSeq (a b : List Bool) : List Bool :=
  List.zipWith and a b

/-- Lengths of the maximal runs of `true` in a Boolean sequence
(`cur` accumulates the length of the run in progress). -/
def trueRunLengths : List Bool → ℕ → List ℕ
  | [], cur => if cur = 0 then [] else [cur]
  | b :: rest, cur =>
    if b then trueRunLengths rest (cur + 1)
    else if cur = 0 then trueRunLengths rest 0
    else cur :: trueRunLengths rest 0

/-- CRQA determinism over an aligned recurrence sequence: the fraction
of recurrent points lying in diagonal runs of length at least `lmin`
(`0` when there are no recurrent points). -/
noncomputable def determinism (lmin : ℕ) (c : List Bool) : ℝ :=
  let runs := trueRunLengths c 0
  ((runs.filter (fun r => lmin ≤ r)).sum : ℝ) / (runs.sum : ℝ)

/-- Modelled from the spec: `normalized_crqa` lives in
`algorithms/crqa_analyzer.py`, which is not under `src/`; per the spec,
CRQA builds a cross-recurrence structure on the discretized event
sequences, computes Determinism, and normalizes it to `[0,1]` against
empirically-calibrated bounds (supplied here as `crqaLo < crqaHi`). -/
noncomputable def normalized_crqa (cfg : FusionConfig) (a b : List Bool) : ℝ :=
  max 0 (min 1 ((determinism cfg.lmin (recSeq a b) - cfg.crqaLo) /
    (cfg.crqaHi - cfg.crqaLo)))

/-- Modelled from the spec: `wavelet_coherence` lives in
`algorithms/fnirs_coherence.py`, which is not under `src/`; per the
spec it reduces the two fNIRS series to a band-averaged
magnitude-squared coherence — cross power squared over the product of
each signal's own power — a scalar in `[0,1]`. -/
noncomputable def wavelet_coherence (a b : List ℝ) : ℝ :=
  (∑ i ∈ Finset.range (min a.length b.length), a.getD i 0 * b.getD i 0) ^ 2 /
    ((∑ i ∈ Finset.range (min a.length b.length), a.getD i 0 ^ 2) *
      ∑ i ∈ Finset.range (min a.length b.length), b.getD i 0 ^ 2)

/-- The fNIRS branch of the pseudocode: the coherence value when both
participants supply an fNIRS series, else the constant `0.0`. -/
noncomputable def fnirsVal (winA winB : Window) : ℝ :=
  match winA.fnirs, winB.fnirs with
  | some fa, some fb => wavelet_coherence fa fb
  | _, _ => 0

/-- Modelled from the spec: `confidence_from_snr` is not under `src/`;
per the spec, confidence is a function of per-participant SNR and the
pairwise agreement (inverse variance) of the channel estimates, scaled
to `[0,1]`. -/
noncomputable def confidence_from_snr (snrA snrB : ℝ) (agreement : List ℝ) : ℝ :=
  let v := meanList (agreement.map (fun x => (x - meanList agreement) ^ 2))
  max 0 (min 1 (min snrA snrB)) * (1 / (1 + v))

/-- The fusion step (line 435 of the pseudocode):
`r = logistic(w1*plv + w2*r_env + w3*crqa_n + w4*fnirs)`. -/
noncomputable def fuseR (cfg : FusionConfig) (plv r_env crqa_n fnirs : ℝ) : ℝ :=
  logistic (cfg.w1 * plv + cfg.w2 * r_env + cfg.w3 * crqa_n + cfg.w4 * fnirs)

/-- `resonance_window(winA, winB)` from research_report.md lines
429-444, with the pseudocode's global weights passed as `cfg`. -/
noncomputable def resonance_window (cfg : FusionConfig) (winA winB : Window) :
    Resonance :=
  let plv := plvVal winA.phase winB.phase
  let r_env := pearson winA.env winB.env
  let crqa_n := normalized_crqa cfg winA.pause_seq winB.pause_seq
  let fnirs := fnirsVal winA winB
  let r := fuseR cfg plv r_env crqa_n fnirs
  let conf := confidence_from_snr winA.snr winB.snr [plv, r_env]
  ⟨plv, r_env, crqa_n, fnirs, r, conf⟩

/-- The renormalized three-estimator fusion the specification demands
when fNIRS is invalid: the remaining weights are rescaled to sum to 1.
Stated from the spec's words, for comparison with `fuseR`. -/
noncomputable def fuseRenormNoFnirs (cfg : FusionConfig)
    (plv r_env crqa_n : ℝ) : ℝ :=
  let s := cfg.w1 + cfg.w2 + cfg.w3
  logistic ((cfg.w1 / s) * plv + (cfg.w2 / s) * r_env + (cfg.w3 / s) * crqa_n)

/-- The concrete configuration of the spec's renormalization example:
original weights `{0.3, 0.3, 0.2, 0.2}` (CRQA calibration fixed at the
identity bounds). -/
noncomputable def exampleConfig : FusionConfig :=
  ⟨0.3, 0.3, 0.2, 0.2, 2, 0, 1⟩

/-- A fully degenerate window: no phase samples, no envelope, no event
sequence, fNIRS absent. -/
noncomputable def emptyWindow : Window :=
  ⟨[], [], [], none, 0⟩

/-! ### Analytic helper lemmas -/

/-- The logistic function takes values strictly between 0 and 1. -/
theorem logistic_pos (z : ℝ) : 0 < logistic z := by
  unfold logistic
  positivity

/-- The logistic function is strictly below 1. -/
theorem logistic_lt_one (z : ℝ) : logistic z < 1 := by
  unfold logistic
  rw [div_lt_one (by positivity)]
  have h := Real.exp_pos (-z)
  linarith

/-- The logistic function is strictly monotone. -/
theorem logistic_strictMono : StrictMono logistic := by
  intro x y hxy
  unfold logistic
  have hy : (0 : ℝ) < 1 + Real.exp (-y) := by positivity
  have hlt : Real.exp (-y) < Real.exp (-x) := Real.exp_lt_exp.mpr (by linarith)
  exact one_div_lt_one_div_of_lt hy (by linarith)

/-- The logistic function is monotone. -/
theorem logistic_mono : Monotone logistic :=
  logistic_strictMono.monotone

/-- Triangle inequality step: the modulus of a sum of unit phasors is at
most their count. -/
theorem abs_sum_exp_le (θs : List ℝ) :
    Complex.abs ((θs.map (fun θ : ℝ => Complex.exp (θ * Complex.I))).sum) ≤ θs.length := by
  induction θs with
  | nil => simp
  | cons θ rest ih =>
    rw [List.map_cons, List.sum_cons, List.length_cons]
    calc Complex.abs (Complex.exp (θ * Complex.I) +
          (rest.map (fun θ : ℝ => Complex.exp (θ * Complex.I))).sum)
        ≤ Complex.abs (Complex.exp (θ * Complex.I)) +
          Complex.abs ((rest.map (fun θ : ℝ => Complex.exp (θ * Complex.I))).sum) :=
          Complex.abs.add_le _ _
      _ ≤ 1 + rest.length := by
          rw [Complex.abs_exp_ofReal_mul_I]
          exact add_le_add_left ih 1
      _ = (rest.length + 1 : ℕ) := by push_cast; ring

/-- The PLV value always lies in `[0, 1]`. -/
theorem plvVal_mem (pa pb : List ℝ) : 0 ≤ plvVal pa pb ∧ plvVal pa pb ≤ 1 := by
  unfold plvVal
  refine ⟨Complex.abs.nonneg _, ?_⟩
  set d := List.zipWith (fun x y => x - y) pa pb with hd
  rcases Nat.eq_zero_or_pos d.length with hzero | hpos
  · rw [List.length_eq_zero.mp hzero]
    simp
  · rw [map_div₀, Complex.abs_natCast]
    rw [div_le_one (by exact_mod_cast hpos)]
    exact abs_sum_exp_le d

/-- Clamping with `max 0 (min 1 ·)` lands in `[0, 1]`. -/
theorem clamp_mem (x : ℝ) : 0 ≤ max 0 (min 1 x) ∧ max 0 (min 1 x) ≤ 1 := by
  constructor
  · exact le_max_left 0 _
  · rw [max_le_iff]
    exact ⟨zero_le_one, min_le_left 1 x⟩

/-- The spec-modelled wavelet coherence lies in `[0, 1]`
(Cauchy-Schwarz). -/
theorem wavelet_coherence_mem (a b : List ℝ) :
    0 ≤ wavelet_coherence a b ∧ wavelet_coherence a b ≤ 1 := by
  unfold wavelet_coherence
  set n := min a.length b.length with hn
  set cross := ∑ i ∈ Finset.range n, a.getD i 0 * b.getD i 0 with hcross
  set pa := ∑ i ∈ Finset.range n, a.getD i 0 ^ 2 with hpa
  set pb := ∑ i ∈ Finset.range n, b.getD i 0 ^ 2 with hpb
  have hpa0 : 0 ≤ pa := Finset.sum_nonneg fun i _ => sq_nonneg _
  have hpb0 : 0 ≤ pb := Finset.sum_nonneg fun i _ => sq_nonneg _
  have hcs : cross ^ 2 ≤ pa * pb := by
    rw [hcross, hpa, hpb]
    exact Finset.sum_mul_sq_le_sq_mul_sq (Finset.range n) _ _
  constructor
  · exact div_nonneg (sq_nonneg _) (mul_nonneg hpa0 hpb0)
  · rcases eq_or_lt_of_le (mul_nonneg hpa0 hpb0) with hz | hpos
    · rw [← hz, div_zero]
      exact zero_le_one
    · rw [div_le_one hpos]
      exact hcs

/-- The normalized CRQA value lies in `[0, 1]`. -/
theorem normalized_crqa_mem (cfg : FusionConfig) (a b : List Bool) :
    0 ≤ normalized_crqa cfg a b ∧ normalized_crqa cfg a b ≤ 1 := by
  unfold normalized_crqa
  exact clamp_mem _

/-- The fNIRS branch lies in `[0, 1]` whether the series are present or
absent. -/
theorem fnirsVal_mem (winA winB : Window) :
    0 ≤ fnirsVal winA winB ∧ fnirsVal winA winB ≤ 1 := by
  unfold fnirsVal
  rcases winA.fnirs with _ | fa <;> rcases winB.fnirs with _ | fb
  · exact ⟨le_refl (0 : ℝ), zero_le_one⟩
  · exact ⟨le_refl (0 : ℝ), zero_le_one⟩
  · exact ⟨le_refl (0 : ℝ), zero_le_one⟩
  · exact wavelet_coherence_mem fa fb

/-- Zipping a list with itself applies the function on the diagonal. -/
theorem zipWith_self_eq_map {α β : Type} (f : α → α → β) (l : List α) :
    List.zipWith f l l = l.map (fun a => f a a) := by
  induction l with
  | nil => rfl
  | cons a rest ih => rw [List.zipWith_cons_cons, List.map_cons, ih]

/-- Identical phase sequences give a PLV of exactly 1 whenever the
window is non-empty. -/
theorem plvVal_self (p : List ℝ) (hne : p ≠ []) : plvVal p p = 1 := by
  unfold plvVal
  rw [zipWith_self_eq_map]
  have hmap : (p.map (fun a => a - a)).map (fun θ : ℝ => Complex.exp (θ * Complex.I)) =
      p.map (fun _ => (1 : ℂ)) := by
    rw [List.map_map]
    refine List.map_congr_left fun a _ => ?_
    simp [Complex.exp_zero]
  rw [hmap, List.map_const']
  rw [List.sum_replicate, List.length_map]
  have hn : (p.length : ℂ) ≠ 0 := by
    exact_mod_cast Nat.cast_ne_zero.mpr (fun h => hne (List.length_eq_zero.mp h))
  rw [nsmul_eq_mul, mul_one, div_self hn, map_one]

/-- Projection of the fused score from the `resonance_window` record. -/
theorem resonance_window_r (cfg : FusionConfig) (winA winB : Window) :
    (resonance_window cfg winA winB).r =
      fuseR cfg (plvVal winA.phase winB.phase) (pearson winA.env winB.env)
        (normalized_crqa cfg winA.pause_seq winB.pause_seq)
        (fnirsVal winA winB) := rfl

/-- Projection of the PLV field from the `resonance_window` record. -/
theorem resonance_window_plv (cfg : FusionConfig) (winA winB : Window) :
    (resonance_window cfg winA winB).plv = plvVal winA.phase winB.phase := rfl

/-- The fNIRS branch evaluates to the constant `0` as soon as either
participant's fNIRS series is absent. -/
theorem fnirsVal_eq_zero_of_absent (winA winB : Window)
    (h : winA.fnirs = none ∨ winB.fnirs = none) : fnirsVal winA winB = 0 := by
  unfold fnirsVal
  rcases h with h | h
  · rw [h]
  · rw [h]
    rcases winA.fnirs with _ | fa <;> rfl

/-! ## Claim theorems -/

/-- C2: for every analysis window (in particular every valid one), the
PLV, normalized CRQA and coherence fields of the emitted record lie in
the closed interval `[0,1]`, and the fused score `r` lies in the open
interval `(0,1)` because the weighted sum is squashed by the logistic
function. -/
theorem claim_C2_estimator_bounds (cfg : FusionConfig) (winA winB : Window) :
    (0 ≤ (resonance_window cfg winA winB).plv ∧
      (resonance_window cfg winA winB).plv ≤ 1) ∧
    (0 ≤ (resonance_window cfg winA winB).crqa ∧
      (resonance_window cfg winA winB).crqa ≤ 1) ∧
    (0 ≤ (resonance_window cfg winA winB).fnirs ∧
      (resonance_window cfg winA winB).fnirs ≤ 1) ∧
    (0 < (resonance_window cfg winA winB).r ∧
      (resonance_window cfg winA winB).r < 1) :=
  ⟨plvVal_mem winA.phase winB.phase,
    normalized_crqa_mem cfg winA.pause_seq winB.pause_seq,
    fnirsVal_mem winA winB,
    logistic_pos _, logistic_lt_one _⟩

/-- C3: identical band-limited inputs with zero phase offset (equal
phase sequences) over a non-empty window give a PLV of 1.0 within the
tolerance `1e-6` (here the value is exactly 1). -/
theorem claim_C3_perfect_synchrony (cfg : FusionConfig) (winA winB : Window)
    (hphase : winA.phase = winB.phase) (hne : winA.phase ≠ []) :
    |(resonance_window cfg winA winB).plv - 1| ≤ 1 / 1000000 := by
  rw [resonance_window_plv, hphase]
  rw [plvVal_self winB.phase (hphase ▸ hne)]
  norm_num

/-- Witness for C3 at the one-sample window with phase `[0]`. -/
theorem claim_C3_witness :
    |(resonance_window exampleConfig ⟨[0], [], [], none, 0⟩
        ⟨[0], [], [], none, 0⟩).plv - 1| ≤ 1 / 1000000 :=
  claim_C3_perfect_synchrony exampleConfig ⟨[0], [], [], none, 0⟩
    ⟨[0], [], [], none, 0⟩ rfl (by simp)

/-- C5: with non-negative weights, increasing any single estimator's
value while the other three values and all weights stay fixed never
decreases the fused score computed by the code's fusion step. -/
theorem claim_C5_fusion_monotone (cfg : FusionConfig)
    (h1 : 0 ≤ cfg.w1) (h2 : 0 ≤ cfg.w2) (h3 : 0 ≤ cfg.w3) (h4 : 0 ≤ cfg.w4)
    (p e c f x y : ℝ) (hxy : x ≤ y) :
    fuseR cfg x e c f ≤ fuseR cfg y e c f ∧
    fuseR cfg p x c f ≤ fuseR cfg p y c f ∧
    fuseR cfg p e x f ≤ fuseR cfg p e y f ∧
    fuseR cfg p e c x ≤ fuseR cfg p e c y := by
  unfold fuseR
  refine ⟨logistic_mono ?_, logistic_mono ?_, logistic_mono ?_, logistic_mono ?_⟩
  · have := mul_le_mul_of_nonneg_left hxy h1
    linarith
  · have := mul_le_mul_of_nonneg_left hxy h2
    linarith
  · have := mul_le_mul_of_nonneg_left hxy h3
    linarith
  · have := mul_le_mul_of_nonneg_left hxy h4
    linarith

/-- Witness for C5 at the example weights, raising each estimator from
0 to 1 in turn. -/
theorem claim_C5_witness :
    fuseR exampleConfig 0 (1/2) (1/2) (1/2) ≤ fuseR exampleConfig 1 (1/2) (1/2) (1/2) ∧
    fuseR exampleConfig (1/2) 0 (1/2) (1/2) ≤ fuseR exampleConfig (1/2) 1 (1/2) (1/2) ∧
    fuseR exampleConfig (1/2) (1/2) 0 (1/2) ≤ fuseR exampleConfig (1/2) (1/2) 1 (1/2) ∧
    fuseR exampleConfig (1/2) (1/2) (1/2) 0 ≤ fuseR exampleConfig (1/2) (1/2) (1/2) 1 :=
  claim_C5_fusion_monotone exampleConfig
    (by norm_num [exampleConfig]) (by norm_num [exampleConfig])
    (by norm_num [exampleConfig]) (by norm_num [exampleConfig])
    (1/2) (1/2) (1/2) (1/2) 0 1 (by norm_num)

/-- C1 counterexample: at the spec's own example input
(`plv=0.8, r_env=0.6, crqa=0.4`, original weights `{0.3,0.3,0.2,0.2}`),
the code's fusion with the absent fNIRS term substituted as the value 0
(what line 434 does) differs from the fusion with the remaining weights
renormalized to `{0.375,0.375,0.25}` (what the claim asserts): the code
yields `logistic(0.5)` while the renormalized fusion yields
`logistic(0.625)`. -/
theorem claim_C1_counterexample :
    fuseR exampleConfig 0.8 0.6 0.4 0 ≠ fuseRenormNoFnirs exampleConfig 0.8 0.6 0.4 := by
  have ha : fuseR exampleConfig 0.8 0.6 0.4 0 = logistic (1 / 2) := by
    unfold fuseR exampleConfig
    norm_num
  have hb : fuseRenormNoFnirs exampleConfig 0.8 0.6 0.4 = logistic (5 / 8) := by
    unfold fuseRenormNoFnirs exampleConfig
    norm_num
  rw [ha, hb]
  exact ne_of_lt (logistic_strictMono (by norm_num))

/-- C1 amended: when fNIRS is absent for either participant, the code
keeps the original weights and contributes the value `0.0` for the
fNIRS term, so the fused score is `logistic(w1*plv + w2*r_env +
w3*crqa_n)` with the original (non-renormalized) weights. -/
theorem claim_C1_amended (cfg : FusionConfig) (winA winB : Window)
    (habsent : winA.fnirs = none ∨ winB.fnirs = none) :
    (resonance_window cfg winA winB).r =
      logistic (cfg.w1 * plvVal winA.phase winB.phase +
        cfg.w2 * pearson winA.env winB.env +
        cfg.w3 * normalized_crqa cfg winA.pause_seq winB.pause_seq) := by
  rw [resonance_window_r, fnirsVal_eq_zero_of_absent winA winB habsent]
  unfold fuseR
  rw [mul_zero, add_zero]

/-- Witness for the amended C1 at the degenerate fNIRS-free windows. -/
theorem claim_C1_witness :
    (resonance_window exampleConfig emptyWindow emptyWindow).r =
      logistic (exampleConfig.w1 * plvVal [] [] +
        exampleConfig.w2 * pearson [] [] +
        exampleConfig.w3 * normalized_crqa exampleConfig [] []) :=
  claim_C1_amended exampleConfig emptyWindow emptyWindow (Or.inl rfl)

/-- C4 counterexample: at the `N = 0` input (no phase samples) the PLV
field of the emitted record is the plain number `0` — `np.mean` of an
empty array (NaN in numpy, `0` under the division-by-zero convention
used here) — not a result marked invalid: the `Resonance` record of the
code has no validity marking at all, and the value flows on into
fusion. -/
theorem claim_C4_counterexample :
    (resonance_window exampleConfig emptyWindow emptyWindow).plv = 0 := by
  rw [resonance_window_plv]
  show plvVal [] [] = 0
  simp [plvVal]

/-- C4 amended: with `N = 0` phase samples the code computes `plv = 0`
(NaN in the numpy source) and feeds it into the weighted fusion at full
weight; no invalidation or exclusion happens. -/
theorem claim_C4_amended (cfg : FusionConfig) (winA winB : Window)
    (hphase : winA.phase = []) :
    (resonance_window cfg winA winB).plv = 0 ∧
    (resonance_window cfg winA winB).r =
      logistic (cfg.w1 * 0 + cfg.w2 * pearson winA.env winB.env +
        cfg.w3 * normalized_crqa cfg winA.pause_seq winB.pause_seq +
        cfg.w4 * fnirsVal winA winB) := by
  have hplv : plvVal winA.phase winB.phase = 0 := by
    rw [hphase]
    simp [plvVal]
  constructor
  · rw [resonance_window_plv, hplv]
  · rw [resonance_window_r, hplv]
    rfl

/-- Witness for the amended C4 at the all-empty windows. -/
theorem claim_C4_witness :
    (resonance_window exampleConfig emptyWindow emptyWindow).plv = 0 ∧
    (resonance_window exampleConfig emptyWindow emptyWindow).r =
      logistic (exampleConfig.w1 * 0 + exampleConfig.w2 * pearson [] [] +
        exampleConfig.w3 * normalized_crqa exampleConfig [] [] +
        exampleConfig.w4 * fnirsVal emptyWindow emptyWindow) :=
  claim_C4_amended exampleConfig emptyWindow emptyWindow rfl

/-- C6 counterexample: on a tick where zero estimators are valid (no
phase samples, no envelope, no event sequence, fNIRS absent for both
participants) the code still emits a fully-formed Resonance record,
with fused score `logistic 0 = 1/2` — there is no skip. -/
theorem claim_C6_counterexample :
    (resonance_window exampleConfig emptyWindow emptyWindow).r = 1 / 2 := by
  have h1 : plvVal [] [] = 0 := by simp [plvVal]
  have h2 : pearson [] [] = 0 := by simp [pearson, meanList]
  have h3 : normalized_crqa exampleConfig [] [] = 0 := by
    unfold normalized_crqa determinism recSeq trueRunLengths exampleConfig
    norm_num
  have h4 : fnirsVal emptyWindow emptyWindow = 0 := rfl
  rw [resonance_window_r]
  show fuseR exampleConfig (plvVal [] []) (pearson [] [])
    (normalized_crqa exampleConfig [] []) (fnirsVal emptyWindow emptyWindow) = 1 / 2
  rw [h1, h2, h3, h4]
  unfold fuseR exampleConfig logistic
  norm_num [Real.exp_zero]

/-- C6 amended: `resonance_window` returns a record unconditionally;
when one participant supplies no data at all (and fNIRS is absent) the
emitted record's fused score is still a definite value,
`logistic(w3 * crqa_n)` of the degenerate zero-data CRQA term — a tick
is never skipped. -/
theorem claim_C6_amended (cfg : FusionConfig) (winA winB : Window)
    (hphase : winA.phase = []) (henv : winA.env = [])
    (hpause : winA.pause_seq = []) (hfnirs : winA.fnirs = none) :
    (resonance_window cfg winA winB).r =
      logistic (cfg.w3 * normalized_crqa cfg [] winB.pause_seq) := by
  have hplv : plvVal winA.phase winB.phase = 0 := by
    rw [hphase]; simp [plvVal]
  have hpear : pearson winA.env winB.env = 0 := by
    rw [henv]; simp [pearson, meanList]
  have hf : fnirsVal winA winB = 0 :=
    fnirsVal_eq_zero_of_absent winA winB (Or.inl hfnirs)
  rw [resonance_window_r, hplv, hpear, hf, hpause]
  unfold fuseR
  congr 1
  ring

/-- Witness for the amended C6 at the all-empty windows. -/
theorem claim_C6_witness :
    (resonance_window exampleConfig emptyWindow emptyWindow).r =
      logistic (exampleConfig.w3 * normalized_crqa exampleConfig [] []) :=
  claim_C6_amended exampleConfig emptyWindow emptyWindow rfl rfl rfl rfl

/-- C7: pushing `capacity + k` samples into an initially empty
fixed-capacity buffer (the App's `[...prev, newPoint].slice(-50)`
discipline, capacity 50 in the source) leaves exactly the most recent
`capacity` samples readable, discarding the oldest first: the readable
content is the order-preserving suffix `xs.drop k`. -/
theorem claim_C7_buffer_eviction {α : Type} (cap k : ℕ) (xs : List α)
    (hlen : xs.length = cap + k) :
    List.foldl (pushEvict cap) [] xs = xs.drop k ∧ (xs.drop k).length = cap := by
  have h := foldl_pushEvict cap xs [] (by simp)
  rw [List.nil_append] at h
  constructor
  · rw [h]
    unfold sliceLast
    rw [hlen]
    congr 1
    omega
  · rw [List.length_drop]
    omega

/-- Witness for C7: capacity 2, three pushes keep the last two. -/
theorem claim_C7_witness :
    List.foldl (pushEvict 2) [] [(1 : ℕ), 2, 3] = [(1 : ℕ), 2, 3].drop 1 ∧
      ([(1 : ℕ), 2, 3].drop 1).length = 2 :=
  claim_C7_buffer_eviction 2 1 [(1 : ℕ), 2, 3] (by decide)

/-- C8: in the demo App's simulated session loop, `currentResonance`
starts at 0.32 and every tick clamps `previous + delta` with
`max(0, min(1, ·))`, so after any sequence of tick deltas it lies in
`[0, 1]`. -/
theorem claim_C8_resonance_invariant (δs : List ℝ) :
    0 ≤ List.foldl updateResonance initialResonance δs ∧
      List.foldl updateResonance initialResonance δs ≤ 1 := by
  have key : ∀ (l : List ℝ) (r : ℝ), 0 ≤ r → r ≤ 1 →
      0 ≤ List.foldl updateResonance r l ∧ List.foldl updateResonance r l ≤ 1 := by
    intro l
    induction l with
    | nil =>
      intro r h0 h1
      rw [List.foldl_nil]
      exact ⟨h0, h1⟩
    | cons δ rest ih =>
      intro r h0 h1
      rw [List.foldl_cons]
      apply ih
      · exact le_max_left 0 _
      · unfold updateResonance
        rw [max_le_iff]
        exact ⟨zero_le_one, min_le_left _ _⟩
  exact key δs initialResonance (by norm_num [initialResonance])
    (by norm_num [initialResonance])

/-- C9: the `useWebSocket` notification list never exceeds
`maxNotifications = 100` entries under any sequence of
`handleNotification` calls from the empty list, and after a non-empty
sequence the most recently received notification sits at index 0. -/
theorem claim_C9_notifications_bounded {α : Type} (xs : List α) :
    (List.foldl handleNotification [] xs).length ≤ maxNotifications ∧
      ∀ ys y, xs = ys ++ [y] →
        (List.foldl handleNotification [] xs).head? = some y := by
  have hstep : ∀ (buf : List α) (y : α),
      handleNotification buf y = y :: buf.take 99 := by
    intro buf y
    unfold handleNotification maxNotifications
    rw [show (100 : ℕ) = 99 + 1 from rfl, List.take_succ_cons]
  constructor
  · rcases xs.eq_nil_or_concat with rfl | ⟨ys, y, rfl⟩
    · simp [maxNotifications]
    · rw [List.concat_eq_append, List.foldl_append, List.foldl_cons,
        List.foldl_nil, hstep]
      rw [List.length_cons]
      have := List.length_take_le 99
        (List.foldl handleNotification ([] : List α) ys)
      unfold maxNotifications
      omega
  · intro ys y hxs
    rw [hxs, List.foldl_append, List.foldl_cons, List.foldl_nil, hstep]
    rfl

/-- Witness for C9 with the single notification `5`. -/
theorem claim_C9_witness :
    (List.foldl handleNotification [] [(5 : ℕ)]).length ≤ maxNotifications ∧
      (List.foldl handleNotification [] [(5 : ℕ)]).head? = some 5 := by
  have h := claim_C9_notifications_bounded [(5 : ℕ)]
  exact ⟨h.1, h.2 [] 5 rfl⟩

/-- C10: `clearAll` only resets the read-id set to empty — it removes
no notification — so immediately afterwards every notification counts
as unread and `unreadCount` equals the total number of notifications. -/
theorem claim_C10_clearAll_unread (s : PanelState) :
    (clearAll s).notifications = s.notifications ∧
      unreadCount (clearAll s) = s.notifications.length := by
  constructor
  · rfl
  · unfold unreadCount clearAll
    simp
